import Mathlib

/-!
Verification of the GAIA web-surfer harness: a shallow embedding of the
text-browser tool adapters (`scripts/web_surfer.py`) and of the delegating
search tool (`gaia.py`), together with proofs about the header format, the
tool adapters, the pagination invariants and the file-download path.

Strings are embedded either as Lean `String` (for the formatting layer) or
as `List Char` (for the character-level algorithms); Python byte strings are
embedded as `List Char` as well.  Wall-clock timestamps are embedded at
integer-second granularity as `Int`, so Python's `round(time.time() - t)`
is the plain difference of the two integer timestamps.
-/

set_option maxHeartbeats 1000000

namespace Surfer

/-! ## Generic character-list utilities -/

/-- `isPrefixOfL n h` is true when `n` is a prefix of `h`. -/
def isPrefixOfL : List Char → List Char → Bool
  | [], _ => true
  | _ :: _, [] => false
  | a :: as, b :: bs => a == b && isPrefixOfL as bs

/-- First index at which `needle` occurs in `hay`, if any. -/
def findSubAux (needle : List Char) : List Char → Option Nat
  | [] => if isPrefixOfL needle [] then some 0 else none
  | c :: t =>
      if isPrefixOfL needle (c :: t) then some 0
      else (findSubAux needle t).map (· + 1)

/-- Embedding of Python's `needle in hay` substring test. -/
def containsL (needle hay : List Char) : Bool :=
  (findSubAux needle hay).isSome

/-- Embedding of Python's `str.replace(n, r)`: replace every non-overlapping
occurrence of `n` left to right.  `fuel ≥ cs.length` makes the scan total. -/
def replChars (n r : List Char) : Nat → List Char → List Char
  | 0, cs => cs
  | _ + 1, [] => []
  | fuel + 1, c :: cs =>
      if isPrefixOfL n (c :: cs) then r ++ replChars n r fuel ((c :: cs).drop n.length)
      else c :: replChars n r fuel cs

/-- Python `str.replace` with enough fuel for the whole string. -/
def pyReplace (n r cs : List Char) : List Char :=
  replChars n r cs.length cs

/-- Split a character list into lines, each line keeping its trailing
newline, mirroring repeated Python `readline` calls on a text file.
`fuel ≥ cs.length` makes the recursion total. -/
def splitLinesAux : Nat → List Char → List (List Char)
  | 0, _ => []
  | _ + 1, [] => []
  | fuel + 1, c :: rest =>
      if c = '\n' then ['\n'] :: splitLinesAux fuel rest
      else
        match splitLinesAux fuel rest with
        | [] => [[c]]
        | l :: ls => (c :: l) :: ls

/-! ## Pagination (viewport pages)

Modelled from the spec: `SimpleTextBrowser`'s pagination is not among the
sources; the spec describes it as scanning forward from an offset, extending
up to the viewport budget `V`, then stepping back to the nearest preceding
whitespace character if one exists (the look-back here is the whole chunk),
producing contiguous non-overlapping ranges covering the content. -/

/-- Whitespace characters recognised by the pagination break rule. -/
def isWsChar (c : Char) : Bool :=
  c = ' ' || c = '\t' || c = '\r' || c = '\n'

/-- Largest break position `j` with `s < j ≤ e` such that the character
just before `j` is whitespace, searching downward from `e`. -/
def lastWsBreak (C : List Char) (s : Nat) : Nat → Option Nat
  | 0 => none
  | e + 1 =>
      if s ≤ e && isWsChar (C.getD e 'x') then some (e + 1)
      else lastWsBreak C s e

/-- Modelled from the spec: the end offset of the viewport page that starts
at `s`: extend up to `V` characters, then step back to the nearest preceding
whitespace break when the page does not already reach the end of content. -/
def pageBreak (C : List Char) (V s : Nat) : Nat :=
  let e := min (s + V) C.length
  if e = C.length then e
  else
    match lastWsBreak C s e with
    | some j => j
    | none => e

/-- Build the page ranges from offset `s`; `fuel ≥ C.length - s` suffices. -/
def splitPagesAux (C : List Char) (V : Nat) : Nat → Nat → List (Nat × Nat)
  | 0, _ => []
  | fuel + 1, s =>
      if s < C.length then (s, pageBreak C V s) :: splitPagesAux C V fuel (pageBreak C V s)
      else []

/-- Modelled from the spec: the `viewport_pages` ranges of a page content.
Empty content yields exactly one empty page. -/
def viewportPagesOf (C : List Char) (V : Nat) : List (Nat × Nat) :=
  if C.length = 0 then [(0, 0)] else splitPagesAux C V C.length 0

/-- The slice of content selected by one page range. -/
def pageSlice (C : List Char) (p : Nat × Nat) : List Char :=
  (C.drop p.1).take (p.2 - p.1)

/-- `chainB n s ps` holds when the ranges `ps` start at `s`, are contiguous
(each range starts where the previous one ended), are ordered, and end
exactly at `n`. -/
def chainB (n : Nat) : Nat → List (Nat × Nat) → Bool
  | s, [] => s == n
  | s, p :: rest => p.1 == s && decide (s ≤ p.2) && chainB n p.2 rest

/-! ## The download tool (`DownloadTool.forward`)

The HTTP layer is embedded as a function from the requested URL to the
delivered response; transport-level exceptions of `requests.get` are outside
the model.  `extract_text_from_pdf` (pypdf + markdownify) is an external
collaborator, embedded as an opaque-to-us function parameter `pdfExtract`.
The scratch filesystem is a map from path to written bytes. -/

structure HttpResponse where
  status : Nat
  body : List Char

inductive FetchError where
  | missingKey : FetchError
  | httpStatus : Nat → FetchError
  deriving DecidableEq

/-- `"arxiv"` as characters. -/
def arxivL : List Char := ['a', 'r', 'x', 'i', 'v']

/-- `"abs"` as characters. -/
def absL : List Char := ['a', 'b', 's']

/-- `"pdf"` as characters. -/
def pdfL : List Char := ['p', 'd', 'f']

/-- The non-PDF branch of `DownloadTool.forward` accumulates lines of the
written file while the accumulated text has not passed 20000 characters:
each iteration reads one line and breaks before appending it when the file
is exhausted or the text already exceeds 20000 characters. -/
def accumText : List (List Char) → List Char → List Char
  | [], t => t
  | l :: ls, t => if 20000 < t.length then t else accumText ls (t ++ l)

/-- Number of lines `accumText` appends. -/
def keptCount : List (List Char) → List Char → Nat
  | [], _ => 0
  | l :: ls, t => if 20000 < t.length then 0 else keptCount ls (t ++ l) + 1

/-- Result of one `DownloadTool.forward` call: the URL actually requested,
the scratch path written, the text returned, and the filesystem after the
write. -/
structure DownloadResult where
  requested : List Char
  path : String
  text : List Char
  fs : String → Option (List Char)

/-- Embedding of `DownloadTool.forward` (src/scripts/web_surfer.py lines
138-160): rewrite `abs` to `pdf` in arXiv URLs, GET the URL, write the body
to `/tmp/metadata.pdf` or `/tmp/metadata.txt` by the `"pdf" in url` test on
the rewritten URL, then return either the extracted PDF text or the first
lines of the file up to just past 20000 characters. -/
def downloadRun (net : List Char → HttpResponse) (pdfExtract : List Char → List Char)
    (fs : String → Option (List Char)) (url : List Char) : DownloadResult :=
  let url1 := if containsL arxivL url then pyReplace absL pdfL url else url
  let resp := net url1
  let path := if containsL pdfL url1 then "/tmp/metadata.pdf" else "/tmp/metadata.txt"
  let fs1 : String → Option (List Char) := fun p => if p = path then some resp.body else fs p
  let text :=
    if containsL pdfL url1 then pdfExtract resp.body
    else accumText (splitLinesAux resp.body.length resp.body) []
  { requested := url1, path := path, text := text, fs := fs1 }

/-- `DownloadTool.forward` with an explicit error channel.  The source never
checks `response.status_code` (there is no `raise_for_status` on this path),
so the embedding returns `.ok` for every delivered response. -/
def downloadForward (net : List Char → HttpResponse) (pdfExtract : List Char → List Char)
    (fs : String → Option (List Char)) (url : List Char) :
    Except FetchError DownloadResult :=
  .ok (downloadRun net pdfExtract fs url)

/-! ## The Bing search API call (`SerpAPIBrowser._bing_api_call`) -/

/-- Embedding of `requests.Response.raise_for_status`: raise for any 4xx or
5xx status, otherwise hand the response back. -/
def raiseForStatus (r : HttpResponse) : Except FetchError HttpResponse :=
  if 400 ≤ r.status ∧ r.status < 600 then .error (.httpStatus r.status) else .ok r

/-- Embedding of `SerpAPIBrowser._bing_api_call` (src/scripts/web_surfer.py
lines 31-56): raise `ValueError` (embedded as `FetchError.missingKey`) when
the key is absent, otherwise GET the search endpoint with the key and the
query (embedded as `doGet key query`) and raise for a non-success status. -/
def bing_api_call (key : Option String) (doGet : String → String → HttpResponse)
    (q : String) : Except FetchError HttpResponse :=
  match key with
  | none => .error .missingKey
  | some k => raiseForStatus (doGet k q)

/-- Claim C3 as stated: every failure on the two fetch paths (the search API
call and the file download) surfaces as a raised error. -/
def fetchFailureAlwaysRaises : Prop :=
  (∀ doGet q, bing_api_call none doGet q = .error FetchError.missingKey) ∧
  (∀ k doGet q, 400 ≤ (doGet k q).status → (doGet k q).status < 600 →
      bing_api_call (some k) doGet q = .error (.httpStatus (doGet k q).status)) ∧
  (∀ net pdfExtract fs url,
      400 ≤ (net (downloadRun net pdfExtract fs url).requested).status →
      ∃ e, downloadForward net pdfExtract fs url = .error e)

/-! ## The browser session

`SimpleTextBrowser` itself (`scripts/browser.py`) is not among the sources;
its state and operations are modelled from the spec (section 3 and 4.1).
The header builder `_browser_state` and every tool adapter below are
translated from `src/scripts/web_surfer.py` directly. -/

structure Browser where
  address : String
  page_title : Option String
  page_content : List Char
  viewport_size : Nat
  viewport_current_page : Nat
  viewport_pages : List (Nat × Nat)
  history : List (String × Int)
  find_string : Option String
  find_offset : Nat
  deriving DecidableEq

/-- The fetchers, as one dispatch map from address to `(title, content)` or
a fetch failure.  Search addresses carry the `"bing: "` marker. -/
def Net : Type :=
  String → Except FetchError (Option String × List Char)

/-- The timestamp of the most recent entry of `hist` whose address equals
`addr`, scanning the whole of `hist`; this is the Lean rendering of the
backward `for i in range(len(h)-1, -1, -1)` scan. -/
def lookupLast : List (String × Int) → String → Option Int
  | [], _ => none
  | (a, t) :: rest, addr =>
      match lookupLast rest addr with
      | some r => some r
      | none => if a == addr then some t else none

/-- The character range of the current viewport page. -/
def viewportOf (b : Browser) : String :=
  let p := b.viewport_pages.getD b.viewport_current_page (0, 0)
  String.mk ((b.page_content.drop p.1).take (p.2 - p.1))

/-- Embedding of `_browser_state` (src/scripts/web_surfer.py lines 59-75):
the header accumulates the address line, the title line when a title is
present, the "previously visited" line found by scanning `history` backward
from the second-most-recent entry (hence `dropLast`), and the viewport
position line; the pair also carries the current viewport text. -/
def browser_state (b : Browser) (now : Int) : String × String :=
  let header := "Address: " ++ b.address ++ "\n"
  let header :=
    match b.page_title with
    | some t => header ++ "Title: " ++ t ++ "\n"
    | none => header
  let header :=
    match lookupLast b.history.dropLast b.address with
    | some t =>
        header ++ "You previously visited this page " ++ toString (now - t) ++
          " seconds ago.\n"
    | none => header
  let header :=
    header ++ "Viewport position: Showing page " ++
      toString (b.viewport_current_page + 1) ++ " of " ++
      toString b.viewport_pages.length ++ ".\n"
  (header, viewportOf b)

/-- The claim's description of the previous-visit lookup: the most recent
earlier history entry (all entries but the last, in order) whose address
equals the current address by exact string comparison. -/
def prevVisitSpec (hist : List (String × Int)) (addr : String) : Option Int :=
  ((hist.dropLast.filter (fun p => p.1 == addr)).getLast?).map (·.2)

/-- The header exactly as claim C1 lists it: an address line; a title line
exactly when a title is present; a previously-visited line exactly when an
earlier history entry matches the address, reporting the elapsed seconds
since the most recent such entry; and a 1-based viewport position line. -/
def specHeaderC1 (b : Browser) (now : Int) : String :=
  "Address: " ++ b.address ++ "\n" ++
    (match b.page_title with
     | some t => "Title: " ++ t ++ "\n"
     | none => "") ++
    (match prevVisitSpec b.history b.address with
     | some t => "You previously visited this page " ++ toString (now - t) ++ " seconds ago.\n"
     | none => "") ++
    ("Viewport position: Showing page " ++ toString (b.viewport_current_page + 1) ++
      " of " ++ toString b.viewport_pages.length ++ ".\n")

/-- Modelled from the spec: `SimpleTextBrowser.visit_page` resolves the
address through the fetcher dispatch, replaces content and title, recomputes
the viewport pages, resets the viewport to page 0, appends `(address, now)`
to the history and clears the find state; a fetch failure propagates and
leaves the session unchanged. -/
def visit_page (net : Net) (now : Int) (b : Browser) (addr : String) :
    Except FetchError Browser :=
  match net addr with
  | .error e => .error e
  | .ok (title, content) =>
      .ok { b with
            address := addr
            page_title := title
            page_content := content
            viewport_pages := viewportPagesOf content b.viewport_size
            viewport_current_page := 0
            history := b.history ++ [(addr, now)]
            find_string := none
            find_offset := 0 }

/-- Modelled from the spec: `page_up` retreats the viewport one page,
clamped at 0 (`Nat` subtraction clamps). -/
def page_up (b : Browser) : Browser :=
  { b with viewport_current_page := b.viewport_current_page - 1 }

/-- Modelled from the spec: `page_down` advances the viewport one page,
clamped at the last page. -/
def page_down (b : Browser) : Browser :=
  { b with viewport_current_page := min (b.viewport_current_page + 1) (b.viewport_pages.length - 1) }

/-- Lower-case every character, for the case-insensitive find. -/
def lowerL (cs : List Char) : List Char :=
  cs.map Char.toLower

/-- Split a character list on a separator character; used to cut a wildcard
pattern at its `*`s. -/
def splitChar (sep : Char) : List Char → List (List Char)
  | [] => [[]]
  | c :: rest =>
      let r := splitChar sep rest
      if c = sep then [] :: r
      else
        match r with
        | [] => [[c]]
        | l :: ls => (c :: l) :: ls

/-- Do the literal segments occur in `hay`, in order, left to right? -/
def segsMatchFrom : List (List Char) → List Char → Bool
  | [], _ => true
  | seg :: rest, hay =>
      match findSubAux seg hay with
      | none => false
      | some i => segsMatchFrom rest (hay.drop (i + seg.length))

/-- Modelled from the spec: the case-insensitive, `*`-wildcard find over the
page content starting at `start`, returning the offset of the earliest
match.  The pattern is cut at its wildcards and the segments are matched
greedily in order, which is complete for `*` glob patterns. -/
def globFindFrom (content pat : List Char) (start : Nat) : Option Nat :=
  let hay := (lowerL content).drop start
  match splitChar '*' (lowerL pat) with
  | [] => none
  | seg0 :: rest =>
      match findSubAux seg0 hay with
      | none => none
      | some i =>
          if segsMatchFrom rest (hay.drop (i + seg0.length)) then some (start + i)
          else none

/-- Index of the viewport page containing offset `off` (the first page whose
end is past the offset), defaulting to the last page. -/
def pageContaining (pages : List (Nat × Nat)) (off : Nat) : Nat :=
  match pages.findIdx? (fun p => decide (off < p.2)) with
  | some i => i
  | none => pages.length - 1

/-- Modelled from the spec: `find_on_page` searches from the beginning of
the document; on a match it moves the viewport to the page containing the
match offset and records the find state, and on no match it returns `none`
and leaves the session unchanged. -/
def find_on_page (b : Browser) (s : String) : Option Nat × Browser :=
  match globFindFrom b.page_content s.data 0 with
  | none => (none, b)
  | some off =>
      (some off,
       { b with viewport_current_page := pageContaining b.viewport_pages off,
                find_string := some s, find_offset := off })

/-- Modelled from the spec: `find_next` resumes just past the last match,
wrapping to the start of the document when nothing follows; it returns
`none` when there is no recorded search or the pattern matches nowhere. -/
def find_next (b : Browser) : Option Nat × Browser :=
  match b.find_string with
  | none => (none, b)
  | some s =>
      match globFindFrom b.page_content s.data (b.find_offset + 1) with
      | some off =>
          (some off,
           { b with viewport_current_page := pageContaining b.viewport_pages off,
                    find_offset := off })
      | none =>
          match globFindFrom b.page_content s.data 0 with
          | some off =>
              (some off,
               { b with viewport_current_page := pageContaining b.viewport_pages off,
                        find_offset := off })
          | none => (none, b)

/-! ## Markdown link extraction (`re.search` in `NavigationalSearchTool`)

Embedding of `re.search(r"\[.*?\]\((http.*?)\)", page_content)` with
Python's leftmost-start, non-greedy backtracking semantics; `.` does not
match a newline. -/

/-- Match `.*?\)` and return the characters before the closing parenthesis:
everything up to the first `)` on the same line. -/
def captureUrl : List Char → Option (List Char)
  | [] => none
  | c :: rest =>
      if c = ')' then some []
      else if c = '\n' then none
      else (captureUrl rest).map (c :: ·)

/-- Match `.*?\]\((http.*?)\)` at the current position: try to close the
bracket here and complete the match; on failure let `.*?` consume one more
non-newline character and retry. -/
def afterBracket : List Char → Option (List Char)
  | [] => none
  | c :: rest =>
      match
        (if c = ']' then
          match rest with
          | '(' :: 'h' :: 't' :: 't' :: 'p' :: r2 =>
              (captureUrl r2).map (fun u => 'h' :: 't' :: 't' :: 'p' :: u)
          | _ => none
        else none) with
      | some u => some u
      | none => if c = '\n' then none else afterBracket rest

/-- Leftmost match of the whole pattern: try each `[` as a starting point,
in order, and return the captured `http...` group. -/
def searchLinkAux : List Char → Option (List Char)
  | [] => none
  | c :: rest =>
      if c = '[' then
        match afterBracket rest with
        | some u => some u
        | none => searchLinkAux rest
      else searchLinkAux rest

/-- `m.group(1)` of the first markdown-style link, as a string. -/
def searchLink (cs : List Char) : Option String :=
  (searchLinkAux cs).map String.mk

/-! ## Tool adapters (`src/scripts/web_surfer.py`)

Each `forward` returns its text output, the session state after the call,
and the trace of session operations it invoked. -/

inductive SessionOp where
  | visit : String → SessionOp
  | pageUp : SessionOp
  | pageDown : SessionOp
  | findOp : String → SessionOp
  | findNextOp : SessionOp
  deriving DecidableEq

/-- The `header.strip() + "\n=======================\n" + content` format
shared by the adapters. -/
def toolOutput (b : Browser) (now : Int) : String :=
  (browser_state b now).1.trim ++ "\n=======================\n" ++ (browser_state b now).2

/-- Embedding of `SearchInformationTool.forward` (lines 84-87). -/
def searchInformationForward (net : Net) (now : Int) (b : Browser) (query : String) :
    Except FetchError (String × Browser × List SessionOp) :=
  match visit_page net now b ("bing: " ++ query) with
  | .error e => .error e
  | .ok b1 =>
      .ok ((browser_state b1 now).1.trim ++ "\n=======================\n" ++
             (browser_state b1 now).2,
           b1, [SessionOp.visit ("bing: " ++ query)])

/-- Embedding of `NavigationalSearchTool.forward` (lines 96-106): visit the
search page, extract the first markdown link of the result page, visit that
link when one exists, and report from wherever the session ended up. -/
def navigationalSearchForward (net : Net) (now : Int) (b : Browser) (query : String) :
    Except FetchError (String × Browser × List SessionOp) :=
  match visit_page net now b ("bing: " ++ query) with
  | .error e => .error e
  | .ok b1 =>
      match searchLink b1.page_content with
      | some u =>
          match visit_page net now b1 u with
          | .error e => .error e
          | .ok b2 =>
              .ok ((browser_state b2 now).1.trim ++ "\n=======================\n" ++
                     (browser_state b2 now).2,
                   b2, [SessionOp.visit ("bing: " ++ query), SessionOp.visit u])
      | none =>
          .ok ((browser_state b1 now).1.trim ++ "\n=======================\n" ++
                 (browser_state b1 now).2,
               b1, [SessionOp.visit ("bing: " ++ query)])

/-- Embedding of `VisitTool.forward` (lines 115-118). -/
def visitToolForward (net : Net) (now : Int) (b : Browser) (url : String) :
    Except FetchError (String × Browser × List SessionOp) :=
  match visit_page net now b url with
  | .error e => .error e
  | .ok b1 =>
      .ok ((browser_state b1 now).1.trim ++ "\n=======================\n" ++
             (browser_state b1 now).2,
           b1, [SessionOp.visit url])

/-- Embedding of `PageUpTool.forward` (lines 168-171). -/
def pageUpForward (now : Int) (b : Browser) : String × Browser × List SessionOp :=
  let b1 := page_up b
  ((browser_state b1 now).1.trim ++ "\n=======================\n" ++ (browser_state b1 now).2,
   b1, [SessionOp.pageUp])

/-- Embedding of `PageDownTool.forward` (lines 179-182). -/
def pageDownForward (now : Int) (b : Browser) : String × Browser × List SessionOp :=
  let b1 := page_down b
  ((browser_state b1 now).1.trim ++ "\n=======================\n" ++ (browser_state b1 now).2,
   b1, [SessionOp.pageDown])

/-- Embedding of `FinderTool.forward` (lines 191-198): run the find, then
report either the not-found message or the new viewport. -/
def finderForward (now : Int) (b : Browser) (s : String) :
    String × Browser × List SessionOp :=
  match find_on_page b s with
  | (none, b1) =>
      ((browser_state b1 now).1.trim ++
         "\n=======================\nThe search string '" ++ s ++
         "' was not found on this page.",
       b1, [SessionOp.findOp s])
  | (some _, b1) =>
      ((browser_state b1 now).1.trim ++ "\n=======================\n" ++
         (browser_state b1 now).2,
       b1, [SessionOp.findOp s])

/-- Embedding of `FindNextTool.forward` (lines 207-214). -/
def findNextForward (now : Int) (b : Browser) : String × Browser × List SessionOp :=
  match find_next b with
  | (none, b1) =>
      ((browser_state b1 now).1.trim ++
         "\n=======================\nThe search string was not found on this page.",
       b1, [SessionOp.findNextOp])
  | (some _, b1) =>
      ((browser_state b1 now).1.trim ++ "\n=======================\n" ++
         (browser_state b1 now).2,
       b1, [SessionOp.findNextOp])

/-- Claim C2 as stated: every session-wrapping adapter invokes exactly one
session operation per `forward` call. -/
def everyForwardOneOp : Prop :=
  (∀ net now b q out b1 ops,
      searchInformationForward net now b q = .ok (out, b1, ops) → ops.length = 1) ∧
  (∀ net now b q out b1 ops,
      navigationalSearchForward net now b q = .ok (out, b1, ops) → ops.length = 1) ∧
  (∀ net now b url out b1 ops,
      visitToolForward net now b url = .ok (out, b1, ops) → ops.length = 1) ∧
  (∀ now b, (pageUpForward now b).2.2.length = 1) ∧
  (∀ now b, (pageDownForward now b).2.2.length = 1) ∧
  (∀ now b s, (finderForward now b s).2.2.length = 1) ∧
  (∀ now b, (findNextForward now b).2.2.length = 1)

/-! ## The delegating search tool (`SearchTool.forward` in `src/gaia.py`)

The surfer run itself and `json.loads` are external collaborators: the trace
is a list of message contents (already stringified, so Python's `str(...)`
is the identity here) and `parseName` embeds the
`json.loads(content)["tool_name"]` lookup together with its `except` fall
through (`none` when the lookup would raise). -/

/-- Substring test on strings. -/
def containsS (needle hay : String) : Bool :=
  containsL needle.data hay.data

/-- The first `n` characters of a string, Python's `content[:1000]` slice. -/
def strTake (s : String) (n : Nat) : String :=
  String.mk (s.data.take n)

/-- Embedding of the per-entry compression in `SearchTool.forward`
(src/gaia.py lines 227-240): a tool-call entry (one whose text contains
`tool_arguments`) is shown in full below 1000 characters and otherwise
reduced to its tool name, falling back to a 1000-character prefix; any other
entry is replaced by a placeholder above 1000 characters and shown in full
otherwise. -/
def compressEntry (parseName : String → Option String) (content : String) : String :=
  if containsS "tool_arguments" content then
    if content.length < 1000 then "Tool call: " ++ content ++ "\n"
    else
      match parseName content with
      | some nm => "Tool call: " ++ nm ++ "\n"
      | none => "Tool call: " ++ strTake content 1000 ++ "\n"
  else
    if 1000 < content.length then "Tool output too long to show.\n"
    else content ++ "\n"

/-- Concatenation of a list of strings. -/
def sJoin : List String → String
  | [] => ""
  | s :: rest => s ++ sJoin rest

/-- Embedding of `SearchTool.forward` (src/gaia.py lines 207-243): the
report opens with a fixed line, accumulates the compressed trace entries in
order, and closes with a fixed line followed by the surfer's final answer. -/
def searchToolForward (parseName : String → Option String) (trace : List String)
    (finalAnswer : String) : String :=
  let answer := "Here is the report from your team member's search:\n"
  let answer := trace.foldl (fun acc c => acc ++ compressEntry parseName c) answer
  let answer := answer ++ "\nNow here is the team member's final answer deducted from the above:\n"
  answer ++ finalAnswer

/-! ## Concrete fixtures used by witnesses and counterexamples -/

/-- A tiny network: a search page whose body holds one markdown link, and
the linked page. -/
def cnet : Net := fun a =>
  if a = "bing: x" then .ok (some "Results", "[r](http://e.com/p)".data)
  else if a = "http://e.com/p" then .ok (some "E", "hello world".data)
  else .error (.httpStatus 404)

/-- A network on which every fetch fails. -/
def cnetBad : Net := fun _ => .error (.httpStatus 500)

/-- A blank starting session. -/
def cb0 : Browser :=
  { address := "about:blank", page_title := none, page_content := [],
    viewport_size := 5120, viewport_current_page := 0, viewport_pages := [(0, 0)],
    history := [], find_string := none, find_offset := 0 }

/-- A loaded session with a short page, used by the find witnesses. -/
def cbFind : Browser :=
  { address := "http://e.com/p", page_title := some "E",
    page_content := "hello world".data, viewport_size := 5120,
    viewport_current_page := 0, viewport_pages := [(0, 11)],
    history := [("http://e.com/p", 5)], find_string := none, find_offset := 0 }

/-- The value computed by the navigational search on the tiny network. -/
def cNavRes : String × Browser × List SessionOp :=
  match navigationalSearchForward cnet 0 cb0 "x" with
  | .ok r => r
  | .error _ => ("", cb0, [])

/-- An HTTP layer whose every response is a 404 page. -/
def cnet404 : List Char → HttpResponse := fun _ => ⟨404, "Not Found".data⟩

/-- An HTTP layer delivering a fixed small text file. -/
def cnet200 : List Char → HttpResponse := fun _ => ⟨200, "hi\nthere".data⟩

/-! ## Helper lemmas -/

theorem lookupLast_eq_filterLast (l : List (String × Int)) (addr : String) :
    lookupLast l addr = ((l.filter (fun p => p.1 == addr)).getLast?).map (·.2) := by
  induction l with
  | nil => rfl
  | cons p rest ih =>
    obtain ⟨a, t⟩ := p
    rw [lookupLast, ih, List.filter_cons]
    by_cases h : (a == addr) = true
    · simp only [h, if_true]
      cases hg : (rest.filter (fun p => p.1 == addr)).getLast? with
      | none =>
        have he : rest.filter (fun p => p.1 == addr) = [] :=
          List.getLast?_eq_none_iff.mp hg
        simp [he, h]
      | some y =>
        have hne : rest.filter (fun p => p.1 == addr) ≠ [] := by
          intro hn
          rw [hn] at hg
          exact Option.noConfusion hg
        obtain ⟨x, xs, hxe⟩ := List.exists_cons_of_ne_nil hne
        rw [hxe]
        rw [hxe] at hg
        simp [List.getLast?_cons_cons, hg]
    · simp only [h, if_false]
      cases hg : (rest.filter (fun p => p.1 == addr)).getLast? with
      | none => simp [hg, h]
      | some y => simp [hg]

theorem downloadRun_requested (net : List Char → HttpResponse)
    (pdfx : List Char → List Char) (fs : String → Option (List Char)) (url : List Char) :
    (downloadRun net pdfx fs url).requested =
      (if containsL arxivL url then pyReplace absL pdfL url else url) := by
  rfl

theorem downloadRun_path (net : List Char → HttpResponse)
    (pdfx : List Char → List Char) (fs : String → Option (List Char)) (url : List Char) :
    (downloadRun net pdfx fs url).path =
      (if containsL pdfL (downloadRun net pdfx fs url).requested then "/tmp/metadata.pdf"
       else "/tmp/metadata.txt") := by
  rfl

theorem downloadRun_fs (net : List Char → HttpResponse)
    (pdfx : List Char → List Char) (fs : String → Option (List Char)) (url : List Char)
    (p : String) :
    (downloadRun net pdfx fs url).fs p =
      (if p = (downloadRun net pdfx fs url).path
       then some (net (downloadRun net pdfx fs url).requested).body else fs p) := by
  rfl

/-! ## Claim C1: header construction -/

/-- C1.  For every session state, the header built by `_browser_state` is,
in order: the address line; the title line exactly when a title is present;
the "previously visited N seconds ago" line for the most recent earlier
history entry with the same address, scanning backward from the
second-most-recent entry and omitted when no earlier entry matches; and the
1-based "Showing page X of Y" viewport position line. -/
theorem claim_C1 (b : Browser) (now : Int) :
    (browser_state b now).1 = specHeaderC1 b now := by
  unfold browser_state specHeaderC1 prevVisitSpec
  rw [lookupLast_eq_filterLast]
  cases hpt : b.page_title with
  | none =>
    cases hm : ((b.history.dropLast.filter (fun p => p.1 == b.address)).getLast?) with
    | none =>
      simp only [Option.map_none', Option.map_some', String.append_assoc,
        String.append_empty, String.empty_append]
    | some y =>
      simp only [Option.map_none', Option.map_some', String.append_assoc,
        String.append_empty, String.empty_append]
  | some ti =>
    cases hm : ((b.history.dropLast.filter (fun p => p.1 == b.address)).getLast?) with
    | none =>
      simp only [Option.map_none', Option.map_some', String.append_assoc,
        String.append_empty, String.empty_append]
    | some y =>
      simp only [Option.map_none', Option.map_some', String.append_assoc,
        String.append_empty, String.empty_append]

/-! ## Claim C3: fetch failures -/

/-- C3 counterexample.  The claim that every fetch-path failure surfaces as
a raised error is false: the file-download fetch of a URL whose response has
status 404 returns normally. -/
theorem claim_C3_counterexample : ¬ fetchFailureAlwaysRaises := by
  intro h
  obtain ⟨-, -, h3⟩ := h
  obtain ⟨e, he⟩ :=
    h3 cnet404 (fun x => x) (fun _ => none) ("http://x.com/notes.txt".data) (by decide)
  rw [downloadForward] at he
  exact Except.noConfusion he

/-- C3 amended.  The search API call always surfaces failures: a missing
credential raises, and a non-2xx response status raises through
`raise_for_status`; the file-download fetch, however, performs no status
check at all: it never raises for any delivered response and returns the
body-derived result regardless of the response status. -/
theorem claim_C3_amended :
    (∀ doGet q, bing_api_call none doGet q = .error FetchError.missingKey) ∧
    (∀ (k : String) doGet q, 400 ≤ (doGet k q).status → (doGet k q).status < 600 →
        bing_api_call (some k) doGet q = .error (.httpStatus (doGet k q).status)) ∧
    (∀ (k : String) doGet q, ¬ (400 ≤ (doGet k q).status ∧ (doGet k q).status < 600) →
        bing_api_call (some k) doGet q = .ok (doGet k q)) ∧
    (∀ net pdfx fs url, downloadForward net pdfx fs url = .ok (downloadRun net pdfx fs url)) ∧
    (∀ net pdfx fs url, ¬ ∃ e, downloadForward net pdfx fs url = .error e) := by
  refine ⟨fun _ _ => rfl, ?_, ?_, fun _ _ _ _ => rfl, ?_⟩
  · intro k doGet q h1 h2
    rw [bing_api_call, raiseForStatus, if_pos ⟨h1, h2⟩]
  · intro k doGet q h
    rw [bing_api_call, raiseForStatus, if_neg h]
  · intro net pdfx fs url ⟨e, he⟩
    rw [downloadForward] at he
    exact Except.noConfusion he

/-- C3 witness: a 404 on the search API raises, while a 404 on the download
path returns normally. -/
theorem claim_C3_witness :
    bing_api_call (some "k") (fun _ _ => ⟨404, []⟩) "q" = .error (.httpStatus 404) ∧
    downloadForward cnet404 (fun x => x) (fun _ => none) ("http://x.com/notes.txt".data) =
      .ok (downloadRun cnet404 (fun x => x) (fun _ => none) ("http://x.com/notes.txt".data)) :=
  ⟨claim_C3_amended.2.1 "k" (fun _ _ => ⟨404, []⟩) "q" (by decide) (by decide),
   claim_C3_amended.2.2.2.1 cnet404 (fun x => x) (fun _ => none) ("http://x.com/notes.txt".data)⟩

/-! ## Claim C5: find with no match -/

/-- C5.  When the find (or find-next) session operation reports no match,
the corresponding adapter returns a non-error result consisting of the
header followed by the specific "was not found on this page" message, with
the session unchanged, instead of the viewport text. -/
theorem claim_C5 (now : Int) (b : Browser) (s : String) :
    ((find_on_page b s).1 = none →
        finderForward now b s =
          ((browser_state b now).1.trim ++
             "\n=======================\nThe search string '" ++ s ++
             "' was not found on this page.",
           b, [SessionOp.findOp s])) ∧
    ((find_next b).1 = none →
        findNextForward now b =
          ((browser_state b now).1.trim ++
             "\n=======================\nThe search string was not found on this page.",
           b, [SessionOp.findNextOp])) := by
  constructor
  · intro h
    cases hg : globFindFrom b.page_content s.data 0 with
    | none => simp [finderForward, find_on_page, hg]
    | some off => simp [find_on_page, hg] at h
  · intro h
    cases hs : b.find_string with
    | none => simp [findNextForward, find_next, hs]
    | some s1 =>
      cases hg1 : globFindFrom b.page_content s1.data (b.find_offset + 1) with
      | some off => simp [find_next, hs, hg1] at h
      | none =>
        cases hg0 : globFindFrom b.page_content s1.data 0 with
        | some off => simp [find_next, hs, hg1, hg0] at h
        | none => simp [findNextForward, find_next, hs, hg1, hg0]

/-- C5 witness: searching a loaded page for an absent string yields the
not-found message. -/
theorem claim_C5_witness :
    finderForward 0 cbFind "zzz" =
      ((browser_state cbFind 0).1.trim ++
         "\n=======================\nThe search string '" ++ "zzz" ++
         "' was not found on this page.",
       cbFind, [SessionOp.findOp "zzz"]) :=
  (claim_C5 0 cbFind "zzz").1 (by decide)

/-! ## Claim C6: adapters do not catch fetch errors -/

/-- C6.  When the underlying session operation fails with a fetch error,
the adapter's `forward` propagates the very same error: the visit tool, the
informational search tool, and the navigational search tool (on either of
its two visits) all return the error unchanged. -/
theorem claim_C6 (net : Net) (now : Int) (b : Browser) (e : FetchError) :
    (∀ url, visit_page net now b url = .error e →
        visitToolForward net now b url = .error e) ∧
    (∀ q, visit_page net now b ("bing: " ++ q) = .error e →
        searchInformationForward net now b q = .error e ∧
        navigationalSearchForward net now b q = .error e) ∧
    (∀ q b1 u, visit_page net now b ("bing: " ++ q) = .ok b1 →
        searchLink b1.page_content = some u →
        visit_page net now b1 u = .error e →
        navigationalSearchForward net now b q = .error e) := by
  refine ⟨?_, ?_, ?_⟩
  · intro url h
    simp [visitToolForward, h]
  · intro q h
    exact ⟨by simp [searchInformationForward, h], by simp [navigationalSearchForward, h]⟩
  · intro q b1 u h1 h2 h3
    simp [navigationalSearchForward, h1, h2, h3]

/-- C6 witness: a failing fetch propagates out of the visit tool unchanged. -/
theorem claim_C6_witness :
    visitToolForward cnetBad 0 cb0 "http://x" = .error (.httpStatus 500) :=
  (claim_C6 cnetBad 0 cb0 (.httpStatus 500)).1 "http://x" rfl

/-! ## Claim C8: fixed scratch paths for downloads -/

/-- C8.  Every download is written to one of the two fixed scratch paths,
the path is determined only by the PDF classification of the requested URL,
the body is written at that path, nothing else on the filesystem changes
(in particular nothing is cleaned up), and a second download of the same
classification overwrites the artifact at the same path. -/
theorem claim_C8 (net : List Char → HttpResponse) (pdfx : List Char → List Char)
    (fs : String → Option (List Char)) (url : List Char) :
    ((downloadRun net pdfx fs url).path = "/tmp/metadata.pdf" ∨
       (downloadRun net pdfx fs url).path = "/tmp/metadata.txt") ∧
    ((downloadRun net pdfx fs url).path =
       (if containsL pdfL (downloadRun net pdfx fs url).requested then "/tmp/metadata.pdf"
        else "/tmp/metadata.txt")) ∧
    ((downloadRun net pdfx fs url).fs (downloadRun net pdfx fs url).path =
       some (net (downloadRun net pdfx fs url).requested).body) ∧
    (∀ p, p ≠ (downloadRun net pdfx fs url).path →
       (downloadRun net pdfx fs url).fs p = fs p) ∧
    (∀ url2,
       containsL pdfL (downloadRun net pdfx ((downloadRun net pdfx fs url).fs) url2).requested =
         containsL pdfL (downloadRun net pdfx fs url).requested →
       (downloadRun net pdfx ((downloadRun net pdfx fs url).fs) url2).fs
           ((downloadRun net pdfx fs url).path) =
         some (net (downloadRun net pdfx ((downloadRun net pdfx fs url).fs) url2).requested).body) := by
  refine ⟨?_, downloadRun_path net pdfx fs url, ?_, ?_, ?_⟩
  · rw [downloadRun_path]
    by_cases h : containsL pdfL (downloadRun net pdfx fs url).requested = true
    · exact Or.inl (by rw [if_pos h])
    · exact Or.inr (by rw [if_neg h])
  · rw [downloadRun_fs, if_pos rfl]
  · intro p hp
    rw [downloadRun_fs, if_neg hp]
  · intro url2 hcl
    have hpath : (downloadRun net pdfx fs url).path =
        (downloadRun net pdfx ((downloadRun net pdfx fs url).fs) url2).path := by
      rw [downloadRun_path net pdfx fs url,
        downloadRun_path net pdfx ((downloadRun net pdfx fs url).fs) url2, hcl]
    rw [downloadRun_fs, if_pos hpath]

/-- C8 witness: two non-PDF downloads land on the same fixed path, the
second overwriting the first. -/
theorem claim_C8_witness :
    (downloadRun cnet200 (fun x => x) ((downloadRun cnet200 (fun x => x) (fun _ => none)
          ("http://a.com/f.txt".data)).fs) ("http://b.org/g.txt".data)).fs
        ((downloadRun cnet200 (fun x => x) (fun _ => none) ("http://a.com/f.txt".data)).path) =
      some (cnet200 (downloadRun cnet200 (fun x => x) ((downloadRun cnet200 (fun x => x)
          (fun _ => none) ("http://a.com/f.txt".data)).fs) ("http://b.org/g.txt".data)).requested).body :=
  (claim_C8 cnet200 (fun x => x) (fun _ => none) ("http://a.com/f.txt".data)).2.2.2.2
    ("http://b.org/g.txt".data) (by decide)

/-! ## Claim C2: one session operation per forward call -/

/-- C2 counterexample.  The claim that every adapter invokes exactly one
session operation is false: on a search page containing a markdown link the
navigational search tool performs two visits in a single `forward` call. -/
theorem claim_C2_counterexample : ¬ everyForwardOneOp := by
  intro h
  have h2 := h.2.1 cnet 0 cb0 "x" cNavRes.1 cNavRes.2.1 cNavRes.2.2 rfl
  have h3 : cNavRes.2.2.length = 2 := rfl
  omega

/-- C2 amended.  Every session-wrapping adapter invokes exactly one session
operation per `forward` call and formats its result as header, separator
and viewport text — except the navigational search tool, which performs a
search visit followed by a second visit when a top link is extracted (one
or two operations). -/
theorem claim_C2_amended :
    (∀ net now b q out b1 ops,
        searchInformationForward net now b q = .ok (out, b1, ops) →
        ops = [SessionOp.visit ("bing: " ++ q)] ∧ out = toolOutput b1 now) ∧
    (∀ net now b q out b1 ops,
        navigationalSearchForward net now b q = .ok (out, b1, ops) →
        (ops.length = 1 ∨ ops.length = 2) ∧ out = toolOutput b1 now) ∧
    (∀ net now b url out b1 ops,
        visitToolForward net now b url = .ok (out, b1, ops) →
        ops = [SessionOp.visit url] ∧ out = toolOutput b1 now) ∧
    (∀ now b, (pageUpForward now b).2.2 = [SessionOp.pageUp] ∧
        (pageUpForward now b).1 = toolOutput (page_up b) now) ∧
    (∀ now b, (pageDownForward now b).2.2 = [SessionOp.pageDown] ∧
        (pageDownForward now b).1 = toolOutput (page_down b) now) ∧
    (∀ now b s, (finderForward now b s).2.2 = [SessionOp.findOp s] ∧
        ((find_on_page b s).1 ≠ none →
          (finderForward now b s).1 = toolOutput (find_on_page b s).2 now)) ∧
    (∀ now b, (findNextForward now b).2.2 = [SessionOp.findNextOp] ∧
        ((find_next b).1 ≠ none →
          (findNextForward now b).1 = toolOutput (find_next b).2 now)) := by
  refine ⟨?_, ?_, ?_, fun now b => ⟨rfl, rfl⟩, fun now b => ⟨rfl, rfl⟩, ?_, ?_⟩
  · intro net now b q out b1 ops h
    cases hv : visit_page net now b ("bing: " ++ q) with
    | error e =>
      rw [searchInformationForward, hv] at h
      exact Except.noConfusion h
    | ok bb =>
      simp only [searchInformationForward, hv, Except.ok.injEq, Prod.mk.injEq] at h
      obtain ⟨h1, h2, h3⟩ := h
      subst h1; subst h2; subst h3
      exact ⟨rfl, rfl⟩
  · intro net now b q out b1 ops h
    cases hv : visit_page net now b ("bing: " ++ q) with
    | error e =>
      rw [navigationalSearchForward, hv] at h
      exact Except.noConfusion h
    | ok bb =>
      cases hL : searchLink bb.page_content with
      | none =>
        simp only [navigationalSearchForward, hv, hL, Except.ok.injEq, Prod.mk.injEq] at h
        obtain ⟨h1, h2, h3⟩ := h
        subst h1; subst h2; subst h3
        exact ⟨Or.inl rfl, rfl⟩
      | some u =>
        cases hv2 : visit_page net now bb u with
        | error e =>
          rw [navigationalSearchForward, hv] at h
          simp only [hL, hv2] at h
          exact Except.noConfusion h
        | ok b2 =>
          rw [navigationalSearchForward, hv] at h
          simp only [hL, hv2, Except.ok.injEq, Prod.mk.injEq] at h
          obtain ⟨h1, h2, h3⟩ := h
          subst h1; subst h2; subst h3
          exact ⟨Or.inr rfl, rfl⟩
  · intro net now b url out b1 ops h
    cases hv : visit_page net now b url with
    | error e =>
      rw [visitToolForward, hv] at h
      exact Except.noConfusion h
    | ok bb =>
      simp only [visitToolForward, hv, Except.ok.injEq, Prod.mk.injEq] at h
      obtain ⟨h1, h2, h3⟩ := h
      subst h1; subst h2; subst h3
      exact ⟨rfl, rfl⟩
  · intro now b s
    cases hf : find_on_page b s with
    | mk o b1 =>
      cases o with
      | none =>
        refine ⟨by simp only [finderForward, hf], ?_⟩
        intro hne
        exact absurd rfl hne
      | some off =>
        exact ⟨by simp only [finderForward, hf], fun _ => by
          simp only [finderForward, hf, toolOutput]⟩
  · intro now b
    cases hf : find_next b with
    | mk o b1 =>
      cases o with
      | none =>
        refine ⟨by simp only [findNextForward, hf], ?_⟩
        intro hne
        exact absurd rfl hne
      | some off =>
        exact ⟨by simp only [findNextForward, hf], fun _ => by
          simp only [findNextForward, hf, toolOutput]⟩

/-- C2 witness: the amended statement evaluated on the tiny network, where
the navigational search performs its two visits. -/
theorem claim_C2_amended_witness :
    (cNavRes.2.2.length = 1 ∨ cNavRes.2.2.length = 2) ∧
    cNavRes.1 = toolOutput cNavRes.2.1 0 :=
  claim_C2_amended.2.1 cnet 0 cb0 "x" cNavRes.1 cNavRes.2.1 cNavRes.2.2 rfl

/-! ## Claim C7: the delegating search tool's compressed transcript -/

theorem foldl_append_eq_sJoin (f : String → String) (l : List String) (init : String) :
    l.foldl (fun acc c => acc ++ f c) init = init ++ sJoin (l.map f) := by
  induction l generalizing init with
  | nil => rw [List.foldl_nil, List.map_nil, sJoin, String.append_empty]
  | cons c rest ih =>
    rw [List.foldl_cons, List.map_cons, sJoin, ih, String.append_assoc]

/-- C7.  The delegating search tool returns the fixed report prefix, the
concatenation of the compressed trace entries in order, the fixed closing
line and the surfer's final answer; each entry compresses by the fixed
threshold 1000: a tool-call entry is kept whole under the threshold and
otherwise reduced to its tool name (or its 1000-character prefix when the
name cannot be extracted), and any other entry is replaced by the fixed
too-long placeholder line exactly when it is longer than the threshold. -/
theorem claim_C7 (p : String → Option String) (trace : List String) (fa : String) :
    searchToolForward p trace fa =
      "Here is the report from your team member's search:\n" ++
        sJoin (trace.map (compressEntry p)) ++
        "\nNow here is the team member's final answer deducted from the above:\n" ++ fa ∧
    (∀ c, containsS "tool_arguments" c = true → c.length < 1000 →
        compressEntry p c = "Tool call: " ++ c ++ "\n") ∧
    (∀ c nm, containsS "tool_arguments" c = true → 1000 ≤ c.length → p c = some nm →
        compressEntry p c = "Tool call: " ++ nm ++ "\n") ∧
    (∀ c, containsS "tool_arguments" c = true → 1000 ≤ c.length → p c = none →
        compressEntry p c = "Tool call: " ++ strTake c 1000 ++ "\n") ∧
    (∀ c, containsS "tool_arguments" c = false → 1000 < c.length →
        compressEntry p c = "Tool output too long to show.\n") ∧
    (∀ c, containsS "tool_arguments" c = false → c.length ≤ 1000 →
        compressEntry p c = c ++ "\n") := by
  refine ⟨?_, ?_, ?_, ?_, ?_, ?_⟩
  · rw [searchToolForward]
    rw [foldl_append_eq_sJoin (compressEntry p) trace]
  · intro c h1 h2
    simp only [compressEntry, h1, if_true, if_pos h2]
  · intro c nm h1 h2 hp
    simp only [compressEntry, h1, if_true, if_neg (Nat.not_lt.mpr h2), hp]
  · intro c h1 h2 hp
    simp only [compressEntry, h1, if_true, if_neg (Nat.not_lt.mpr h2), hp]
  · intro c h1 h2
    simp only [compressEntry, h1, Bool.false_eq_true, if_false, if_pos h2]
  · intro c h1 h2
    simp only [compressEntry, h1, Bool.false_eq_true, if_false, if_neg (Nat.not_lt.mpr h2)]

/-- C7 witness: a one-entry trace with a short tool call. -/
theorem claim_C7_witness :
    searchToolForward (fun _ => none) ["hi tool_arguments"] "done" =
      "Here is the report from your team member's search:\n" ++
        sJoin (["hi tool_arguments"].map (compressEntry (fun _ => none))) ++
        "\nNow here is the team member's final answer deducted from the above:\n" ++ "done" ∧
    compressEntry (fun _ => none) "hi tool_arguments" =
      "Tool call: " ++ "hi tool_arguments" ++ "\n" :=
  ⟨(claim_C7 (fun _ => none) ["hi tool_arguments"] "done").1,
   (claim_C7 (fun _ => none) ["hi tool_arguments"] "done").2.1 "hi tool_arguments"
     (by decide) (by decide)⟩

/-! ## Claim C4: pagination invariants -/

theorem lastWsBreak_le (C : List Char) (s : Nat) :
    ∀ e j, lastWsBreak C s e = some j → s < j ∧ j ≤ e := by
  intro e
  induction e with
  | zero => intro j h; exact Option.noConfusion h
  | succ e ih =>
    intro j h
    rw [lastWsBreak] at h
    by_cases hc : (decide (s ≤ e) && isWsChar (C.getD e 'x')) = true
    · rw [if_pos hc] at h
      injection h with h1
      subst h1
      have hse : s ≤ e := of_decide_eq_true ((Bool.and_eq_true _ _).mp hc).1
      omega
    · rw [if_neg hc] at h
      obtain ⟨h1, h2⟩ := ih j h
      exact ⟨h1, Nat.le_succ_of_le h2⟩

theorem pageBreak_progress (C : List Char) (V s : Nat) (hV : 1 ≤ V) (hs : s < C.length) :
    s < pageBreak C V s ∧ pageBreak C V s ≤ C.length ∧ pageBreak C V s - s ≤ V := by
  simp only [pageBreak]
  by_cases hc : min (s + V) C.length = C.length
  · rw [if_pos hc]
    omega
  · rw [if_neg hc]
    cases hj : lastWsBreak C s (min (s + V) C.length) with
    | none =>
      show s < min (s + V) C.length ∧ min (s + V) C.length ≤ C.length ∧
        min (s + V) C.length - s ≤ V
      omega
    | some j =>
      obtain ⟨h1, h2⟩ := lastWsBreak_le C s _ j hj
      show s < j ∧ j ≤ C.length ∧ j - s ≤ V
      have hmin1 : min (s + V) C.length ≤ s + V := Nat.min_le_left _ _
      have hmin2 : min (s + V) C.length ≤ C.length := Nat.min_le_right _ _
      omega

theorem splitPagesAux_spec (C : List Char) (V : Nat) (hV : 1 ≤ V) :
    ∀ fuel s, s < C.length → C.length ≤ s + fuel →
      chainB C.length s (splitPagesAux C V fuel s) = true ∧
      (splitPagesAux C V fuel s).all (fun p => decide (p.2 - p.1 ≤ V)) = true := by
  intro fuel
  induction fuel with
  | zero => intro s hs hf; omega
  | succ fuel ih =>
    intro s hs hf
    rw [splitPagesAux, if_pos hs]
    obtain ⟨h1, h2, h3⟩ := pageBreak_progress C V s hV hs
    by_cases hend : pageBreak C V s < C.length
    · obtain ⟨ihc, iha⟩ := ih (pageBreak C V s) hend (by omega)
      refine ⟨?_, ?_⟩
      · rw [chainB]
        simp only [beq_self_eq_true, Bool.true_and, Bool.and_eq_true, decide_eq_true_eq]
        exact ⟨Nat.le_of_lt h1, ihc⟩
      · rw [List.all_cons]
        simp only [iha, Bool.and_true, decide_eq_true_eq]
        exact h3
    · have hpb : pageBreak C V s = C.length := by omega
      have hrec : splitPagesAux C V fuel (pageBreak C V s) = [] := by
        cases fuel with
        | zero => rfl
        | succ f => rw [splitPagesAux, if_neg (by omega)]
      rw [hrec]
      refine ⟨?_, ?_⟩
      · rw [chainB, chainB]
        simp only [beq_self_eq_true, Bool.true_and, Bool.and_eq_true, decide_eq_true_eq,
          beq_iff_eq]
        exact ⟨Nat.le_of_lt h1, hpb⟩
      · rw [List.all_cons, List.all_nil]
        simp only [Bool.and_true, decide_eq_true_eq]
        exact h3

theorem chainB_flatten (C : List Char) :
    ∀ (ps : List (Nat × Nat)) (s : Nat), chainB C.length s ps = true →
      (ps.map (pageSlice C)).flatten = C.drop s := by
  intro ps
  induction ps with
  | nil =>
    intro s h
    rw [chainB] at h
    have hs : s = C.length := by simpa using h
    rw [hs, List.map_nil, List.flatten_nil, List.drop_length]
  | cons p rest ih =>
    intro s h
    rw [chainB] at h
    simp only [Bool.and_eq_true, beq_iff_eq, decide_eq_true_eq] at h
    obtain ⟨⟨hp1, hple⟩, hchain⟩ := h
    rw [List.map_cons, List.flatten_cons, ih p.2 hchain, pageSlice, hp1]
    have hd : C.drop p.2 = (C.drop s).drop (p.2 - s) := by
      rw [List.drop_drop]
      congr 1
      omega
    rw [hd, List.take_append_drop]

/-- C4.  For every viewport budget `V ≥ 1` and every content `C`, the
computed viewport page ranges are contiguous, non-overlapping, cover `C` in
order so that concatenating all the range slices reconstructs `C` exactly,
and no page exceeds `V` characters. -/
theorem claim_C4 (C : List Char) (V : Nat) (hV : 1 ≤ V) :
    chainB C.length 0 (viewportPagesOf C V) = true ∧
    ((viewportPagesOf C V).map (pageSlice C)).flatten = C ∧
    (viewportPagesOf C V).all (fun p => decide (p.2 - p.1 ≤ V)) = true := by
  by_cases hz : C.length = 0
  · have hC : C = [] := List.length_eq_zero.mp hz
    subst hC
    refine ⟨rfl, rfl, ?_⟩
    simp [viewportPagesOf]
  · have h0 : 0 < C.length := Nat.pos_of_ne_zero hz
    obtain ⟨hch, hall⟩ := splitPagesAux_spec C V hV C.length 0 h0 (by omega)
    rw [viewportPagesOf, if_neg hz]
    refine ⟨hch, ?_, hall⟩
    have hfl := chainB_flatten C (splitPagesAux C V C.length 0) 0 hch
    simpa using hfl

/-- C4 witness: `V = 4` on an eleven-character three-word content. -/
theorem claim_C4_witness :
    chainB ("ab cd ef gh".data).length 0 (viewportPagesOf ("ab cd ef gh".data) 4) = true ∧
    ((viewportPagesOf ("ab cd ef gh".data) 4).map (pageSlice ("ab cd ef gh".data))).flatten =
      "ab cd ef gh".data ∧
    (viewportPagesOf ("ab cd ef gh".data) 4).all (fun p => decide (p.2 - p.1 ≤ 4)) = true :=
  claim_C4 ("ab cd ef gh".data) 4 (by decide)

/-! ## Claim C9: the 20000-character line accumulation -/

theorem accumText_spec : ∀ (lines : List (List Char)) (t : List Char),
    accumText lines t = t ++ (lines.take (keptCount lines t)).flatten ∧
    keptCount lines t ≤ lines.length ∧
    (∀ j < keptCount lines t, (t ++ (lines.take j).flatten).length ≤ 20000) ∧
    (keptCount lines t < lines.length →
      20000 < (t ++ (lines.take (keptCount lines t)).flatten).length) := by
  intro lines
  induction lines with
  | nil =>
    intro t
    refine ⟨by simp [accumText, keptCount], Nat.le_refl _, ?_, ?_⟩
    · intro j hj
      rw [keptCount] at hj
      omega
    · intro hcon
      rw [keptCount, List.length_nil] at hcon
      omega
  | cons l ls ih =>
    intro t
    by_cases hbig : 20000 < t.length
    · have hk : keptCount (l :: ls) t = 0 := by simp [keptCount, hbig]
      have ha : accumText (l :: ls) t = t := by simp [accumText, hbig]
      refine ⟨?_, ?_, ?_, ?_⟩
      · rw [ha, hk, List.take_zero, List.flatten_nil, List.append_nil]
      · rw [hk]; exact Nat.zero_le _
      · intro j hj
        rw [hk] at hj
        omega
      · intro _
        rw [hk, List.take_zero, List.flatten_nil, List.append_nil]
        exact hbig
    · obtain ⟨ih1, ih2, ih3, ih4⟩ := ih (t ++ l)
      have hk : keptCount (l :: ls) t = keptCount ls (t ++ l) + 1 := by
        simp [keptCount, hbig]
      have ha : accumText (l :: ls) t = accumText ls (t ++ l) := by
        simp [accumText, hbig]
      refine ⟨?_, ?_, ?_, ?_⟩
      · rw [ha, ih1, hk, List.take_succ_cons, List.flatten_cons, ← List.append_assoc]
      · rw [hk, List.length_cons]
        omega
      · intro j hj
        rw [hk] at hj
        cases j with
        | zero =>
          rw [List.take_zero, List.flatten_nil, List.append_nil]
          omega
        | succ j1 =>
          have hle := ih3 j1 (by omega)
          rw [List.take_succ_cons, List.flatten_cons, ← List.append_assoc]
          exact hle
      · intro hcon
        rw [hk, List.length_cons] at hcon
        have hgt := ih4 (by omega)
        rw [hk, List.take_succ_cons, List.flatten_cons, ← List.append_assoc]
        exact hgt

theorem isPrefixOfL_append_self : ∀ (a b : List Char), isPrefixOfL a (a ++ b) = true := by
  intro a b
  induction a with
  | nil => rfl
  | cons c cs ih => simp [isPrefixOfL, ih]

theorem splitLinesAux_flatten : ∀ (fuel : Nat) (cs : List Char), cs.length ≤ fuel →
    (splitLinesAux fuel cs).flatten = cs := by
  intro fuel
  induction fuel with
  | zero =>
    intro cs h
    have hc : cs = [] := List.length_eq_zero.mp (Nat.le_zero.mp h)
    subst hc
    rfl
  | succ fuel ih =>
    intro cs h
    cases cs with
    | nil => rfl
    | cons c rest =>
      have hlen : rest.length ≤ fuel := by
        rw [List.length_cons] at h
        omega
      rw [splitLinesAux]
      by_cases hc : c = '\n'
      · rw [if_pos hc, List.flatten_cons, ih rest hlen, hc]
        rfl
      · rw [if_neg hc]
        cases hrec : splitLinesAux fuel rest with
        | nil =>
          have hr := ih rest hlen
          rw [hrec, List.flatten_nil] at hr
          rw [List.flatten_cons, List.flatten_nil, List.append_nil, ← hr]
        | cons l ls =>
          have hr := ih rest hlen
          rw [hrec, List.flatten_cons] at hr
          rw [List.flatten_cons, List.cons_append, hr]

theorem downloadRun_text_nonpdf (net : List Char → HttpResponse)
    (pdfx : List Char → List Char) (fs : String → Option (List Char)) (url : List Char)
    (hnp : containsL pdfL (downloadRun net pdfx fs url).requested = false) :
    (downloadRun net pdfx fs url).text =
      accumText (splitLinesAux (net (downloadRun net pdfx fs url).requested).body.length
        (net (downloadRun net pdfx fs url).requested).body) [] := by
  have h1 : (downloadRun net pdfx fs url).text =
      (if containsL pdfL (downloadRun net pdfx fs url).requested then
        pdfx (net (downloadRun net pdfx fs url).requested).body
       else
        accumText (splitLinesAux (net (downloadRun net pdfx fs url).requested).body.length
          (net (downloadRun net pdfx fs url).requested).body) []) := rfl
  rw [h1, if_neg (by rw [hnp]; exact Bool.false_ne_true)]

/-- C9.  For every non-PDF-classified download, the returned text is the
concatenation of the first `k` lines of the response body, where every line
is appended only while the already-accumulated text is at most 20000
characters; when the accumulation stops before the end of the file the text
already exceeds 20000 characters (so it never extends more than one line
past the threshold, and the rest of the file is dropped); and the text is a
prefix of the body. -/
theorem claim_C9 (net : List Char → HttpResponse) (pdfx : List Char → List Char)
    (fs : String → Option (List Char)) (url : List Char)
    (body : List Char) (lines : List (List Char)) (k : Nat)
    (hb : body = (net (downloadRun net pdfx fs url).requested).body)
    (hl : lines = splitLinesAux body.length body)
    (hk : k = keptCount lines [])
    (hnp : containsL pdfL (downloadRun net pdfx fs url).requested = false) :
    (downloadRun net pdfx fs url).text = (lines.take k).flatten ∧
    k ≤ lines.length ∧
    (∀ j < k, ((lines.take j).flatten).length ≤ 20000) ∧
    (k < lines.length → 20000 < ((lines.take k).flatten).length) ∧
    isPrefixOfL (downloadRun net pdfx fs url).text body = true := by
  obtain ⟨a1, a2, a3, a4⟩ := accumText_spec lines []
  have htext : (downloadRun net pdfx fs url).text = accumText lines [] := by
    rw [downloadRun_text_nonpdf net pdfx fs url hnp, ← hb, ← hl]
  have htake : (downloadRun net pdfx fs url).text = (lines.take k).flatten := by
    rw [htext, a1, hk, List.nil_append]
  refine ⟨htake, hk ▸ a2, ?_, ?_, ?_⟩
  · intro j hj
    have := a3 j (hk ▸ hj)
    rwa [List.nil_append] at this
  · intro hlt
    have := a4 (hk ▸ hlt)
    rw [List.nil_append] at this
    exact hk ▸ this
  · have hbody : body = (lines.take k).flatten ++ (lines.drop k).flatten := by
      rw [← List.flatten_append, List.take_append_drop, hl]
      exact (splitLinesAux_flatten body.length body (Nat.le_refl _)).symm
    rw [htake, hbody]
    exact isPrefixOfL_append_self _ _

/-- C9 witness: a small two-line text download returns exactly its kept
lines. -/
theorem claim_C9_witness :
    (downloadRun cnet200 (fun x => x) (fun _ => none) ("http://a.com/f.txt".data)).text =
      ((splitLinesAux ("hi\nthere".data).length ("hi\nthere".data)).take
        (keptCount (splitLinesAux ("hi\nthere".data).length ("hi\nthere".data)) [])).flatten :=
  (claim_C9 cnet200 (fun x => x) (fun _ => none) ("http://a.com/f.txt".data)
    ("hi\nthere".data) (splitLinesAux ("hi\nthere".data).length ("hi\nthere".data))
    (keptCount (splitLinesAux ("hi\nthere".data).length ("hi\nthere".data)) [])
    rfl rfl rfl (by decide)).1

/-! ## Claim C10: the arXiv abs-to-pdf rewrite -/

theorem replAbs_head_s : ∀ (fuel : Nat) (cs rest : List Char),
    replChars absL pdfL fuel cs = 's' :: rest → ∃ r2, cs = 's' :: r2 := by
  intro fuel cs rest h
  cases fuel with
  | zero => exact ⟨rest, h⟩
  | succ f =>
    cases cs with
    | nil => exact List.noConfusion h
    | cons c cs1 =>
      rw [replChars] at h
      by_cases hp : isPrefixOfL absL (c :: cs1) = true
      · rw [if_pos hp] at h
        simp [pdfL] at h
      · rw [if_neg hp] at h
        injection h with h1 h2
        exact ⟨cs1, by rw [h1]⟩

theorem replAbs_head_bs : ∀ (fuel : Nat) (cs rest : List Char),
    replChars absL pdfL fuel cs = 'b' :: 's' :: rest → ∃ r2, cs = 'b' :: 's' :: r2 := by
  intro fuel cs rest h
  cases fuel with
  | zero => exact ⟨rest, h⟩
  | succ f =>
    cases cs with
    | nil => exact List.noConfusion h
    | cons c cs1 =>
      rw [replChars] at h
      by_cases hp : isPrefixOfL absL (c :: cs1) = true
      · rw [if_pos hp] at h
        simp [pdfL] at h
      · rw [if_neg hp] at h
        injection h with h1 h2
        obtain ⟨r2, hr⟩ := replAbs_head_s f cs1 rest h2
        exact ⟨r2, by rw [h1, hr]⟩

theorem absL_shape : ∀ (l : List Char), isPrefixOfL absL l = true →
    ∃ t, l = 'a' :: 'b' :: 's' :: t := by
  intro l h
  cases l with
  | nil => simp [absL, isPrefixOfL] at h
  | cons c1 l1 =>
    cases l1 with
    | nil => simp [absL, isPrefixOfL] at h
    | cons c2 l2 =>
      cases l2 with
      | nil => simp [absL, isPrefixOfL] at h
      | cons c3 l3 =>
        simp only [absL, isPrefixOfL, Bool.and_eq_true, beq_iff_eq] at h
        obtain ⟨h1, h2, h3, -⟩ := h
        exact ⟨l3, by rw [h1, h2, h3]⟩

theorem replAbs_absFree : ∀ (fuel : Nat) (cs : List Char), cs.length ≤ fuel →
    ∀ i, isPrefixOfL absL ((replChars absL pdfL fuel cs).drop i) = false := by
  intro fuel
  induction fuel with
  | zero =>
    intro cs h i
    have hc : cs = [] := List.length_eq_zero.mp (Nat.le_zero.mp h)
    subst hc
    rw [show replChars absL pdfL 0 [] = [] from rfl, List.drop_nil]
    rfl
  | succ f ih =>
    intro cs h i
    cases cs with
    | nil =>
      rw [show replChars absL pdfL (f + 1) [] = [] from rfl, List.drop_nil]
      rfl
    | cons c cs1 =>
      rw [replChars]
      by_cases hp : isPrefixOfL absL (c :: cs1) = true
      · rw [if_pos hp]
        obtain ⟨t, ht⟩ := absL_shape _ hp
        have hdrop : (c :: cs1).drop absL.length = t := by
          rw [ht]
          rfl
        rw [hdrop]
        have hlen : t.length ≤ f := by
          have hlc := congrArg List.length ht
          rw [List.length_cons] at hlc h
          simp only [List.length_cons] at hlc
          omega
        match i with
        | 0 => rfl
        | 1 => rfl
        | 2 => rfl
        | j + 3 =>
          have hstep : (pdfL ++ replChars absL pdfL f t).drop (j + 3) =
              (replChars absL pdfL f t).drop j := rfl
          rw [hstep]
          exact ih t hlen j
      · rw [if_neg hp]
        match i with
        | j + 1 =>
          have hstep : (c :: replChars absL pdfL f cs1).drop (j + 1) =
              (replChars absL pdfL f cs1).drop j := rfl
          rw [hstep]
          have hlen : cs1.length ≤ f := by
            rw [List.length_cons] at h
            omega
          exact ih cs1 hlen j
        | 0 =>
          rw [List.drop_zero]
          by_contra hcon
          rw [Bool.not_eq_false] at hcon
          obtain ⟨t, ht⟩ := absL_shape _ hcon
          injection ht with h1 h2
          obtain ⟨r2, hr⟩ := replAbs_head_bs f cs1 t h2
          apply hp
          rw [h1, hr]
          rfl

theorem findSubAux_none_of_noPrefix (n : List Char) : ∀ (hay : List Char),
    (∀ i, isPrefixOfL n (hay.drop i) = false) → findSubAux n hay = none := by
  intro hay
  induction hay with
  | nil =>
    intro h
    rw [findSubAux, if_neg (by rw [show isPrefixOfL n ([] : List Char) =
      isPrefixOfL n (List.drop 0 []) from rfl, h 0]; exact Bool.false_ne_true)]
  | cons c t ihh =>
    intro h
    rw [findSubAux, if_neg (by rw [show isPrefixOfL n (c :: t) =
      isPrefixOfL n (List.drop 0 (c :: t)) from rfl, h 0]; exact Bool.false_ne_true)]
    rw [ihh (fun i => h (i + 1))]
    rfl

theorem containsL_absL_pyReplace (url : List Char) :
    containsL absL (pyReplace absL pdfL url) = false := by
  rw [containsL, findSubAux_none_of_noPrefix]
  · rfl
  · exact replAbs_absFree url.length url (Nat.le_refl _)

/-- C10.  The URL requested by the download tool rewrites every occurrence
of `abs` to `pdf` exactly when the URL contains `arxiv` (so the rewritten
URL contains no occurrence of `abs` at all), and URLs not containing
`arxiv` are requested unmodified. -/
theorem claim_C10 (net : List Char → HttpResponse) (pdfx : List Char → List Char)
    (fs : String → Option (List Char)) (url : List Char) :
    (downloadRun net pdfx fs url).requested =
      (if containsL arxivL url then pyReplace absL pdfL url else url) ∧
    (containsL arxivL url = false → (downloadRun net pdfx fs url).requested = url) ∧
    (containsL arxivL url = true →
      containsL absL (downloadRun net pdfx fs url).requested = false) := by
  refine ⟨downloadRun_requested net pdfx fs url, ?_, ?_⟩
  · intro h
    rw [downloadRun_requested, if_neg (by rw [h]; exact Bool.false_ne_true)]
  · intro h
    rw [downloadRun_requested, if_pos h]
    exact containsL_absL_pyReplace url

/-- C10 witness: an arXiv abstract URL is requested with no `abs` left in
it. -/
theorem claim_C10_witness :
    containsL absL (downloadRun cnet200 (fun x => x) (fun _ => none)
        ("https://arxiv.org/abs/2101.00001".data)).requested = false :=
  (claim_C10 cnet200 (fun x => x) (fun _ => none)
    ("https://arxiv.org/abs/2101.00001".data)).2.2 (by decide)

end Surfer
